import Mathlib

/-!
Verification of the interactive dose-response fitting app
(`src/App.jsx` and its revision with a per-variant parameter store).

JavaScript numbers are modelled as real numbers (`ℝ`); `Math.pow` with a
real exponent is `Real.rpow`, `Math.log10` is `Real.logb 10`, and
`Math.pow(_, 2)` (an exact integer power) is `· ^ (2 : ℕ)`.
JavaScript objects used as string-keyed parameter maps are modelled as
association lists `List (String × ℝ)`; the object spread
`{...s, [k]: v}` is `setKey`, property lookup is `getKey`.
-/

noncomputable section

namespace DoseApp

open Real

/-- The three model variants offered by the `models` record:
`Linear`, `Log-linear` and `Emax`. -/
inductive ModelKey : Type where
  | Linear
  | LogLinear
  | Emax
deriving DecidableEq, Repr

/-- A `ParameterState`: a JavaScript object mapping parameter names to
numbers, as an association list. -/
def PState : Type := List (String × ℝ)

/-- Property lookup `p[k]` on a parameter object (`none` = `undefined`). -/
def getKey : PState → String → Option ℝ
  | [], _ => none
  | (k', v) :: rest, k => if k' = k then some v else getKey rest k

/-- The object spread `{...s, [k]: val}`: replaces the value at key `k`
in place if present, otherwise appends the new key. -/
def setKey : PState → String → ℝ → PState
  | [], k, v => [(k, v)]
  | (k', v') :: rest, k, v =>
      if k' = k then (k, v) :: rest else (k', v') :: setKey rest k v

/-- Default parameter values per variant, from the revision of `App.jsx`
holding one state per model (`models[key].params[k].defaultValue`):
Linear `{b: -20}`, Log-linear `{b: -50}`,
Emax `{Emax: 70, ED50: 1.5, h: 1.5}`. -/
def defaultsFor : ModelKey → PState
  | .Linear => [("b", -20)]
  | .LogLinear => [("b", -50)]
  | .Emax => [("Emax", 70), ("ED50", 1.5), ("h", 1.5)]

/-- The initial `stateByModel`: every variant starts at its defaults
(the `useState` initializer builds the whole map at once). -/
def initialStateByModel : ModelKey → PState := defaultsFor

/-- The `update` of the per-variant store:
`setStateByModel(s => ({...s, [modelKey]: {...s[modelKey], [k]: val}}))`,
with `v` the active variant. -/
def updateStore (st : ModelKey → PState) (v : ModelKey) (k : String) (x : ℝ) :
    ModelKey → PState :=
  fun m => if m = v then setKey (st v) k x else st m

/-- The full interactive state: the active variant (`modelKey` of the
`useState('Linear')` in `App`) and the per-variant parameter store. -/
structure AppState : Type where
  modelKey : ModelKey
  stateByModel : ModelKey → PState

/-- The user interactions that touch the store: choosing a model in the
select box, moving a slider (an `update`), pressing Reset. -/
inductive Action : Type where
  | switch (k : ModelKey)
  | update (k : String) (val : ℝ)
  | reset

/-- One step of the UI: `switch` only swaps the active variant identifier;
`update` rewrites one key of the active variant's state; `reset` restores
the active variant's defaults. -/
def step (s : AppState) : Action → AppState
  | .switch k => { s with modelKey := k }
  | .update k val =>
      { s with stateByModel := updateStore s.stateByModel s.modelKey k val }
  | .reset =>
      { s with stateByModel :=
          fun m => if m = s.modelKey then defaultsFor s.modelKey
                   else s.stateByModel m }

/-- Running a sequence of interactions. -/
def run (s : AppState) (acts : List Action) : AppState :=
  acts.foldl step s

/-- `params` as the component reads it: `stateByModel[modelKey]`. -/
def currentParams (s : AppState) : PState :=
  s.stateByModel s.modelKey

/-- `untouched v cur acts = true` when, replaying `acts` from active
variant `cur`, no update or reset ever happens while `v` is active. -/
def untouched (v : ModelKey) : ModelKey → List Action → Bool
  | _, [] => true
  | _, (.switch k) :: rest => untouched v k rest
  | cur, (.update _ _) :: rest =>
      if cur = v then false else untouched v cur rest
  | cur, .reset :: rest =>
      if cur = v then false else untouched v cur rest

/-- Residual sum of squares, translated from
`obs.reduce((acc, y, i) => acc + Math.pow(y - (pred[i] ?? 0), 2), 0)`:
a left fold over `obs` with its index, where an out-of-range access
`pred[i]` (JavaScript `undefined`) falls back to `0` via `?? 0`. -/
def rss (obs pred : List ℝ) : ℝ :=
  obs.enum.foldl (fun acc p => acc + (p.2 - pred.getD p.1 0) ^ (2 : ℕ)) 0

/-- `clampResponse(y) = Math.max(0, Math.min(120, y))`. -/
def clampResponse (y : ℝ) : ℝ :=
  max 0 (min 120 y)

/-- The sampled dose grid,
`Array.from({length: n}, (_, i) => i * 0.01)`. -/
def sampleDoses (n : ℕ) : List ℝ :=
  (List.range n).map (fun i : ℕ => (i : ℝ) * 0.01)

/-- The fixed offset `LOG_OFFSET = 1e-3` added before the logarithm in the
Log-linear model. -/
def LOG_OFFSET : ℝ := 1e-3

/-- The Linear variant, `models.Linear.fn = (x, p) => p.a + p.b * x`. -/
def linearFn (x a b : ℝ) : ℝ := a + b * x

/-- The Log-linear variant,
`models['Log-linear'].fn = (x, p) => p.a + p.b * Math.log10(x + LOG_OFFSET)`. -/
def logLinearFn (x a b : ℝ) : ℝ := a + b * Real.logb 10 (x + LOG_OFFSET)

/-- The Emax variant, `models.Emax.fn`:
`num = p.Emax * Math.pow(x, p.h)`;
`den = Math.pow(p.ED50, p.h) + Math.pow(x, p.h)`;
`inh = den > 0 ? num / den : 0`; result `p.E0 - inh`. -/
def emaxFn (x E0 Em ED50 hill : ℝ) : ℝ :=
  let num := Em * x ^ hill
  let den := ED50 ^ hill + x ^ hill
  let inh := if den > 0 then num / den else 0
  E0 - inh

/-- A parameter object holding the union of the three variants' keys
(each evaluator reads only its own keys, like the JavaScript `p`). -/
structure Params : Type where
  a : ℝ
  b : ℝ
  E0 : ℝ
  Em : ℝ
  ED50 : ℝ
  hill : ℝ

/-- `models[key].fn` dispatched on the selected variant. -/
def modelFn (key : ModelKey) (x : ℝ) (p : Params) : ℝ :=
  match key with
  | .Linear => linearFn x p.a p.b
  | .LogLinear => logLinearFn x p.a p.b
  | .Emax => emaxFn x p.E0 p.Em p.ED50 p.hill

/-- Default parameter values of `models` in `src/App.jsx`
(Linear `a=100, b=-30`; Log-linear `a=100, b=-60`;
Emax `E0=100, Emax=60, ED50=0.5, h=1`). -/
def linearDefaultA : ℝ := 100

def linearDefaultB : ℝ := -30

def logLinearDefaultA : ℝ := 100

def logLinearDefaultB : ℝ := -60

def emaxDefaultE0 : ℝ := 100

def emaxDefaultEm : ℝ := 60

def emaxDefaultED50 : ℝ := 0.5

def emaxDefaultHill : ℝ := 1

/-- The synthetic generator parameters,
`SYNTH = { E0: 100, Emax: 80, ED50: 0.01, h: 1 }`. -/
def SYNTH : Params :=
  { a := 0, b := 0, E0 := 100, Em := 80, ED50 := 0.01, hill := 1 }

/-- `DOSES = [0.5, 1, 2, 3]`. -/
def DOSES : List ℝ := [0.5, 1, 2, 3]

/-- `emaxPred(d, p)`, the standalone generator used for the synthetic
data; the same Emax formula. -/
def emaxPred (d : ℝ) (p : Params) : ℝ :=
  emaxFn d p.E0 p.Em p.ED50 p.hill

/-- `demoData = DOSES.map((x) => ({x, y: emaxPred(x, SYNTH)}))`. -/
def demoData : List (ℝ × ℝ) :=
  DOSES.map (fun x => (x, emaxPred x SYNTH))

/-- The sampled curve handed to the chart:
`xs.map((x) => ({x, y: clampResponse(models[modelKey].fn(x, params))}))`
over the dose grid of `n` samples. -/
def curve (key : ModelKey) (p : Params) (n : ℕ) : List (ℝ × ℝ) :=
  (sampleDoses n).map (fun x => (x, clampResponse (modelFn key x p)))

/-- The predictions compared with the observed data:
`demoData.map((d) => models[modelKey].fn(d.x, params))` — raw values. -/
def preds (key : ModelKey) (p : Params) : List ℝ :=
  demoData.map (fun d => modelFn key d.1 p)

/-- `rssVal = rss(demoData.map((d) => d.y), preds)`. -/
def rssVal (key : ModelKey) (p : Params) : ℝ :=
  rss (demoData.map Prod.snd) (preds key p)

/-- A steep Linear parameter setting (slope at its lower bound `-200`)
used to exhibit an unclamped prediction. -/
def steepParams : Params :=
  { a := 100, b := -200, E0 := 0, Em := 0, ED50 := 0, hill := 0 }

theorem getKey_setKey_self (l : PState) (k : String) (x : ℝ) :
    getKey (setKey l k x) k = some x := by
  induction l with
  | nil => simp [setKey, getKey]
  | cons hd tl ih =>
      obtain ⟨k', v'⟩ := hd
      by_cases h : k' = k
      · simp [setKey, getKey, h]
      · simp [setKey, getKey, h, ih]

theorem getKey_setKey_ne (l : PState) {k k' : String} (x : ℝ) (h : k' ≠ k) :
    getKey (setKey l k x) k' = getKey l k' := by
  have hk : ¬ k = k' := fun e => h e.symm
  induction l with
  | nil => simp [setKey, getKey, hk]
  | cons hd tl ih =>
      obtain ⟨a, b⟩ := hd
      by_cases ha : a = k
      · subst ha; simp [setKey, getKey, hk]
      · simp [setKey, getKey, ha, ih]

theorem run_untouched :
    ∀ (acts : List Action) (s : AppState) (v : ModelKey),
      untouched v s.modelKey acts = true →
      (run s acts).stateByModel v = s.stateByModel v := by
  intro acts
  induction acts with
  | nil => intro s v _; rfl
  | cons a rest ih =>
      intro s v h
      have hrun : run s (a :: rest) = run (step s a) rest := rfl
      cases a with
      | switch k =>
          have h' : untouched v k rest = true := h
          rw [hrun, ih (step s (.switch k)) v h']
          rfl
      | update k val =>
          have hcur : ¬ s.modelKey = v := by
            intro hc
            rw [show untouched v s.modelKey (.update k val :: rest)
                  = if s.modelKey = v then false
                    else untouched v s.modelKey rest from rfl, if_pos hc] at h
            exact Bool.false_ne_true h
          have h' : untouched v s.modelKey rest = true := by
            rw [show untouched v s.modelKey (.update k val :: rest)
                  = if s.modelKey = v then false
                    else untouched v s.modelKey rest from rfl, if_neg hcur] at h
            exact h
          have hvc : ¬ v = s.modelKey := fun e => hcur e.symm
          rw [hrun, ih (step s (.update k val)) v h']
          simp [step, updateStore, hvc]
      | reset =>
          have hcur : ¬ s.modelKey = v := by
            intro hc
            rw [show untouched v s.modelKey (.reset :: rest)
                  = if s.modelKey = v then false
                    else untouched v s.modelKey rest from rfl, if_pos hc] at h
            exact Bool.false_ne_true h
          have h' : untouched v s.modelKey rest = true := by
            rw [show untouched v s.modelKey (.reset :: rest)
                  = if s.modelKey = v then false
                    else untouched v s.modelKey rest from rfl, if_neg hcur] at h
            exact h
          have hvc : ¬ v = s.modelKey := fun e => hcur e.symm
          rw [hrun, ih (step s .reset) v h']
          simp [step, hvc]

/-- C2: the store keeps one ParameterState per variant, co-existing
simultaneously: along any sequence of updates, resets and model switches
that never edits variant `v` while it is active, switching back to `v`
leaves it the active model and shows exactly the parameter values `v`
held before the sequence — a model switch never discards or resets
another variant's state. -/
theorem switch_back_preserves_params :
    ∀ (s : AppState) (acts : List Action) (v : ModelKey),
      untouched v s.modelKey acts = true →
      currentParams (run s (acts ++ [Action.switch v])) = s.stateByModel v
        ∧ (run s (acts ++ [Action.switch v])).modelKey = v := by
  intro s acts v h
  have happ : run s (acts ++ [Action.switch v])
      = step (run s acts) (.switch v) := by
    simp [run, List.foldl_append]
  constructor
  · rw [happ]
    show (run s acts).stateByModel v = s.stateByModel v
    exact run_untouched acts s v h
  · rw [happ]; rfl

/-- An example state for evaluating `switch_back_preserves_params`:
the Emax model active with its `ED50` edited to `2`. -/
def exampleState : AppState :=
  ⟨.Emax, updateStore initialStateByModel .Emax "ED50" 2⟩

/-- An example interaction sequence: switch to Linear and edit its slope. -/
def exampleActs : List Action :=
  [.switch .Linear, .update "b" 7]

theorem switch_back_preserves_params_witness :
    untouched ModelKey.Emax exampleState.modelKey exampleActs = true ∧
    (currentParams (run exampleState (exampleActs ++ [Action.switch ModelKey.Emax]))
        = exampleState.stateByModel ModelKey.Emax
      ∧ (run exampleState (exampleActs ++ [Action.switch ModelKey.Emax])).modelKey
        = ModelKey.Emax) :=
  ⟨by decide,
   switch_back_preserves_params exampleState exampleActs ModelKey.Emax (by decide)⟩

/-- C7: `update(v, k, x)` stores `x` exactly as given (no clamping to the
slider's min/max), and is a frame-preserving point update: key `k` of
variant `v` now reads `x`, every other key of `v` reads as before, and
every other variant's entire state is unchanged. -/
theorem updateStore_frame :
    ∀ (st : ModelKey → PState) (v : ModelKey) (k : String) (x : ℝ)
      (k' : String) (m : ModelKey), k' ≠ k → m ≠ v →
      getKey (updateStore st v k x v) k = some x
        ∧ getKey (updateStore st v k x v) k' = getKey (st v) k'
        ∧ updateStore st v k x m = st m := by
  intro st v k x k' m hk hm
  refine ⟨?_, ?_, ?_⟩
  · simp [updateStore, getKey_setKey_self]
  · unfold updateStore
    rw [if_pos rfl]
    exact getKey_setKey_ne (st v) x hk
  · simp [updateStore, hm]

theorem updateStore_frame_witness :
    "h" ≠ "ED50" ∧ ModelKey.Linear ≠ ModelKey.Emax ∧
    (getKey (updateStore initialStateByModel ModelKey.Emax "ED50" 42 ModelKey.Emax)
        "ED50" = some 42
      ∧ getKey (updateStore initialStateByModel ModelKey.Emax "ED50" 42 ModelKey.Emax)
          "h" = getKey (initialStateByModel ModelKey.Emax) "h"
      ∧ updateStore initialStateByModel ModelKey.Emax "ED50" 42 ModelKey.Linear
          = initialStateByModel ModelKey.Linear) :=
  ⟨by decide, by decide,
   updateStore_frame initialStateByModel ModelKey.Emax "ED50" 42 "h" ModelKey.Linear
     (by decide) (by decide)⟩

theorem clamp_nonneg (y : ℝ) : 0 ≤ clampResponse y :=
  le_max_left 0 _

theorem clamp_le_120 (y : ℝ) : clampResponse y ≤ 120 :=
  max_le (by norm_num) (min_le_left _ _)

theorem clamp_idem (y : ℝ) :
    clampResponse (clampResponse y) = clampResponse y := by
  unfold clampResponse
  rw [min_eq_right (max_le (by norm_num) (min_le_left _ _)),
    max_eq_right (le_max_left _ _)]

/-- C4: `clampResponse` always lands in `[0, 120]` and is idempotent. -/
theorem clampResponse_bounds_idem :
    ∀ y : ℝ, 0 ≤ clampResponse y ∧ clampResponse y ≤ 120
      ∧ clampResponse (clampResponse y) = clampResponse y :=
  fun y => ⟨clamp_nonneg y, clamp_le_120 y, clamp_idem y⟩

theorem enumFrom_foldl_sq (pred : List ℝ) :
    ∀ (obs : List ℝ) (n : ℕ) (acc : ℝ),
      (List.enumFrom n obs).foldl
          (fun acc p => acc + (p.2 - pred.getD p.1 0) ^ (2 : ℕ)) acc
        = acc + ∑ i in Finset.range obs.length,
            (obs.getD i 0 - pred.getD (n + i) 0) ^ (2 : ℕ) := by
  intro obs
  induction obs with
  | nil => intro n acc; simp
  | cons y ys ih =>
      intro n acc
      rw [List.enumFrom_cons, List.foldl_cons, ih]
      rw [List.length_cons, Finset.sum_range_succ']
      simp only [List.getD_cons_succ, List.getD_cons_zero, Nat.add_zero,
        Nat.add_assoc, Nat.add_comm 1]
      ring

theorem rss_eq_sum_getD (obs pred : List ℝ) :
    rss obs pred
      = ∑ i in Finset.range obs.length,
          (obs.getD i 0 - pred.getD i 0) ^ (2 : ℕ) := by
  have h := enumFrom_foldl_sq pred obs 0 0
  simpa [rss, List.enum] using h

theorem getD_eq_dite (l : List ℝ) (i : ℕ) :
    l.getD i 0 = if h : i < l.length then l.get ⟨i, h⟩ else 0 := by
  by_cases h : i < l.length
  · rw [dif_pos h, List.getD_eq_getElem?_getD, List.getElem?_eq_getElem h]
    simp
  · rw [dif_neg h, List.getD_eq_getElem?_getD,
      List.getElem?_eq_none (le_of_not_lt h)]
    rfl

/-- C3: `computeRSS` is the sum over the indices of the observed sequence
of the squared residual, where an index beyond the predicted sequence
contributes as if the prediction were `0`; the fold is total, so a length
mismatch never fails. -/
theorem rss_sum_formula :
    ∀ obs pred : List ℝ,
      rss obs pred
        = ∑ i in Finset.range obs.length,
            (obs.getD i 0
              - if h : i < pred.length then pred.get ⟨i, h⟩ else 0) ^ (2 : ℕ) := by
  intro obs pred
  rw [rss_eq_sum_getD]
  refine Finset.sum_congr rfl ?_
  intro i _
  rw [getD_eq_dite pred]

theorem rss_sum_formula_witness :
    rss [1, 2] [5]
      = ∑ i in Finset.range ([(1 : ℝ), 2] : List ℝ).length,
          (([(1 : ℝ), 2] : List ℝ).getD i 0
            - if h : i < ([(5 : ℝ)] : List ℝ).length
              then ([(5 : ℝ)] : List ℝ).get ⟨i, h⟩ else 0) ^ (2 : ℕ) :=
  rss_sum_formula [1, 2] [5]

/-- C10: `computeRSS` reads only the first `obs.length` entries of the
predicted sequence — two prediction lists agreeing there give the same
RSS — and an empty observed sequence gives RSS `0` whatever the
predictions are. -/
theorem rss_ignores_extra_predictions :
    ∀ (obs pred₁ pred₂ : List ℝ),
      (∀ i, i < obs.length → pred₁.getD i 0 = pred₂.getD i 0) →
      rss obs pred₁ = rss obs pred₂ ∧ rss ([] : List ℝ) pred₁ = 0 := by
  intro obs p₁ p₂ hag
  refine ⟨?_, rfl⟩
  rw [rss_eq_sum_getD, rss_eq_sum_getD]
  refine Finset.sum_congr rfl ?_
  intro i hi
  rw [hag i (Finset.mem_range.mp hi)]

theorem rss_ignores_extra_predictions_witness :
    (∀ i, i < ([(1 : ℝ), 2] : List ℝ).length →
        ([(3 : ℝ), 4, 5] : List ℝ).getD i 0 = ([(3 : ℝ), 4] : List ℝ).getD i 0)
    ∧ (rss [1, 2] [3, 4, 5] = rss [1, 2] [3, 4]
        ∧ rss ([] : List ℝ) [3, 4, 5] = 0) := by
  have hag : ∀ i, i < ([(1 : ℝ), 2] : List ℝ).length →
      ([(3 : ℝ), 4, 5] : List ℝ).getD i 0 = ([(3 : ℝ), 4] : List ℝ).getD i 0 := by
    intro i hi
    have h2 : i < 2 := by simpa using hi
    interval_cases i <;> rfl
  exact ⟨hag, rss_ignores_extra_predictions [1, 2] [3, 4, 5] [3, 4] hag⟩

theorem sampleDoses_getD {n i : ℕ} (h : i < n) :
    (sampleDoses n).getD i 0 = (i : ℝ) * 0.01 := by
  rw [sampleDoses, List.getD_eq_getElem?_getD, List.getElem?_map,
    List.getElem?_range h]
  rfl

/-- C6: the dose grid is uniform with step `0.01`, inclusive of both
endpoints: with 501 points it is exactly `0, 0.01, ..., 5.00` (first
sample `0`, last sample `5`), and with 321 points exactly
`0, 0.01, ..., 3.20`. -/
theorem sampleDoses_uniform_grid :
    (sampleDoses 501).length = 501
    ∧ (∀ i, i < 501 → (sampleDoses 501).getD i 0 = (i : ℝ) / 100)
    ∧ (sampleDoses 501).getD 0 0 = 0
    ∧ (sampleDoses 501).getD 500 0 = 5
    ∧ (∀ i, i + 1 < 501 →
        (sampleDoses 501).getD (i + 1) 0 - (sampleDoses 501).getD i 0 = 1 / 100)
    ∧ (sampleDoses 321).length = 321
    ∧ (∀ i, i < 321 → (sampleDoses 321).getD i 0 = (i : ℝ) / 100)
    ∧ (sampleDoses 321).getD 0 0 = 0
    ∧ (sampleDoses 321).getD 320 0 = 3.2 := by
  refine ⟨by simp [sampleDoses], ?_, ?_, ?_, ?_, by simp [sampleDoses], ?_, ?_, ?_⟩
  · intro i hi; rw [sampleDoses_getD hi]; norm_num; ring
  · rw [sampleDoses_getD (by norm_num : (0:ℕ) < 501)]; norm_num
  · rw [sampleDoses_getD (by norm_num : (500:ℕ) < 501)]; norm_num
  · intro i hi
    rw [sampleDoses_getD hi, sampleDoses_getD (Nat.lt_of_succ_lt hi)]
    push_cast
    ring_nf
  · intro i hi; rw [sampleDoses_getD hi]; norm_num; ring
  · rw [sampleDoses_getD (by norm_num : (0:ℕ) < 321)]; norm_num
  · rw [sampleDoses_getD (by norm_num : (320:ℕ) < 321)]; norm_num

theorem sampleDoses_uniform_grid_witness :
    (sampleDoses 501).getD 3 0 = (3 : ℝ) / 100
    ∧ (sampleDoses 501).getD 1 0 - (sampleDoses 501).getD 0 0 = 1 / 100
    ∧ (sampleDoses 321).getD 7 0 = (7 : ℝ) / 100 :=
  ⟨sampleDoses_uniform_grid.2.1 3 (by norm_num),
   sampleDoses_uniform_grid.2.2.2.2.1 0 (by norm_num),
   sampleDoses_uniform_grid.2.2.2.2.2.2.1 7 (by norm_num)⟩

/-- C1: for non-negative dose and non-negative `ED50`, the Emax evaluator
returns `E0 - (Emax * x^h) / (ED50^h + x^h)`, except that when the
denominator `ED50^h + x^h` is `0` the inhibition term is `0` and the
result is `E0`. -/
theorem emaxFn_eval :
    ∀ (x E0 Em ED50 hill : ℝ), 0 ≤ x → 0 ≤ ED50 →
      emaxFn x E0 Em ED50 hill
        = if ED50 ^ hill + x ^ hill = 0 then E0
          else E0 - Em * x ^ hill / (ED50 ^ hill + x ^ hill) := by
  intro x E0 Em ED50 hill hx hED
  have hden : 0 ≤ ED50 ^ hill + x ^ hill :=
    add_nonneg (Real.rpow_nonneg hED _) (Real.rpow_nonneg hx _)
  by_cases h : ED50 ^ hill + x ^ hill = 0
  · rw [if_pos h]
    simp [emaxFn, h]
  · rw [if_neg h]
    have hpos : 0 < ED50 ^ hill + x ^ hill := lt_of_le_of_ne hden (Ne.symm h)
    simp [emaxFn, hpos]

theorem emaxFn_eval_witness :
    (0 : ℝ) ≤ 1 ∧ (0 : ℝ) ≤ 1 / 2 ∧
    emaxFn 1 100 60 (1 / 2) 1
      = if ((1 : ℝ) / 2) ^ (1 : ℝ) + (1 : ℝ) ^ (1 : ℝ) = 0 then 100
        else 100 - 60 * (1 : ℝ) ^ (1 : ℝ)
          / (((1 : ℝ) / 2) ^ (1 : ℝ) + (1 : ℝ) ^ (1 : ℝ)) :=
  ⟨by norm_num, by norm_num,
   emaxFn_eval 1 100 60 (1 / 2) 1 (by norm_num) (by norm_num)⟩

/-- C8: the Log-linear evaluator computes `a + b * log10(x + ε)` with the
fixed positive offset `ε = LOG_OFFSET = 1e-3` added to the dose before the
logarithm. -/
theorem logLinear_formula :
    (∀ (x a b : ℝ) (p : Params),
        logLinearFn x a b = a + b * Real.logb 10 (x + 1 / 1000)
          ∧ modelFn ModelKey.LogLinear x p
            = p.a + p.b * Real.logb 10 (x + 1 / 1000))
    ∧ (0 : ℝ) < LOG_OFFSET := by
  refine ⟨fun x a b p => ⟨?_, ?_⟩, by norm_num [LOG_OFFSET]⟩
  · rw [logLinearFn]; norm_num [LOG_OFFSET]
  · rw [modelFn, logLinearFn]; norm_num [LOG_OFFSET]

/-- C9: at dose `0` with the default parameter values of `src/App.jsx`,
Linear returns its intercept `a = 100`, Log-linear returns its intercept
plus the epsilon-offset term `b * log10(ε)`, and Emax returns its
baseline `E0 = 100`. -/
theorem baseline_at_zero :
    linearFn 0 linearDefaultA linearDefaultB = linearDefaultA
    ∧ logLinearFn 0 logLinearDefaultA logLinearDefaultB
        = logLinearDefaultA + logLinearDefaultB * Real.logb 10 LOG_OFFSET
    ∧ linearDefaultA = 100
    ∧ emaxFn 0 emaxDefaultE0 emaxDefaultEm emaxDefaultED50 emaxDefaultHill
        = emaxDefaultE0
    ∧ emaxDefaultE0 = 100 := by
  refine ⟨?_, ?_, rfl, ?_, rfl⟩
  · simp [linearFn, linearDefaultA, linearDefaultB]
  · simp [logLinearFn]
  · rw [emaxFn]
    simp only [emaxDefaultE0, emaxDefaultEm, emaxDefaultED50, emaxDefaultHill,
      Real.rpow_one]
    norm_num

theorem curve_getD (key : ModelKey) (p : Params) {n i : ℕ} (h : i < n) :
    (curve key p n).getD i (0, 0)
      = ((i : ℝ) * 0.01, clampResponse (modelFn key ((i : ℝ) * 0.01) p)) := by
  rw [curve, List.getD_eq_getElem?_getD, List.getElem?_map]
  rw [show (sampleDoses n)[i]? = some ((i : ℝ) * 0.01) by
    rw [sampleDoses, List.getElem?_map, List.getElem?_range h]; rfl]
  rfl

/-- C5: every point of the sampled curve carries a response passed through
`clampResponse` (hence in `[0, 120]`), while the predictions fed to the
RSS are the variant evaluator's raw values — at the steep Linear setting
the prediction at the observed dose `3` is `-500`, a value clamping would
have sent to `0`. -/
theorem curve_clamped_preds_raw :
    ∀ (key : ModelKey) (p : Params) (n i : ℕ), i < n →
      ((curve key p n).getD i (0, 0)).2
          = clampResponse (modelFn key (((curve key p n).getD i (0, 0)).1) p)
        ∧ 0 ≤ ((curve key p n).getD i (0, 0)).2
        ∧ ((curve key p n).getD i (0, 0)).2 ≤ 120
        ∧ rssVal key p
            = rss (demoData.map Prod.snd)
                (demoData.map fun d => modelFn key d.1 p)
        ∧ (preds ModelKey.Linear steepParams).getD 3 0 = -500
        ∧ clampResponse (-500) = 0 := by
  intro key p n i h
  rw [curve_getD key p h]
  refine ⟨rfl, clamp_nonneg _, clamp_le_120 _, rfl, ?_, ?_⟩
  · simp [preds, demoData, DOSES, modelFn, linearFn, steepParams]
    norm_num
  · rw [clampResponse, min_eq_right (by norm_num : (-500 : ℝ) ≤ 120),
      max_eq_left (by norm_num : (-500 : ℝ) ≤ 0)]

theorem curve_clamped_preds_raw_witness :
    (0 : ℕ) < 1 ∧
    (((curve ModelKey.Linear steepParams 1).getD 0 (0, 0)).2
        = clampResponse (modelFn ModelKey.Linear
            (((curve ModelKey.Linear steepParams 1).getD 0 (0, 0)).1) steepParams)
      ∧ 0 ≤ ((curve ModelKey.Linear steepParams 1).getD 0 (0, 0)).2
      ∧ ((curve ModelKey.Linear steepParams 1).getD 0 (0, 0)).2 ≤ 120
      ∧ rssVal ModelKey.Linear steepParams
          = rss (demoData.map Prod.snd)
              (demoData.map fun d => modelFn ModelKey.Linear d.1 steepParams)
      ∧ (preds ModelKey.Linear steepParams).getD 3 0 = -500
      ∧ clampResponse (-500) = 0) :=
  ⟨Nat.one_pos,
   curve_clamped_preds_raw ModelKey.Linear steepParams 1 0 Nat.one_pos⟩

end DoseApp

end
